import Mathlib

/-!
Verification development for the FIFO page-replacement simulator (src/FIFO.py).

The source contains two implementations of the FIFO simulation:
* main (lines 38-190): parallel fixed-size array pre_array with a circular
  write pointer current_page;
* visualize_fifo_example (lines 192-245): frames list plus an explicit
  arrival queue.

Both are embedded below as step functions over explicit state, with Python
partiality (IndexError, ValueError, ZeroDivisionError) modelled by Option.
Pages are Python integers, embedded as Int; the empty-frame marker is -1.
-/

namespace FIFO

/-- Python membership test `value in arr` (is_in_array, lines 3-5). -/
def is_in_array (arr : List Int) (value : Int) : Bool := decide (value ∈ arr)

/-- Python list assignment l[i] = v: negative indices count from the end of
the list; an out-of-range index raises IndexError (modelled as none). -/
def pySet (l : List Int) (i : Int) (v : Int) : Option (List Int) :=
  if 0 ≤ i then
    if i.toNat < l.length then some (l.set i.toNat v) else none
  else
    if (-i).toNat ≤ l.length then some (l.set (l.length - (-i).toNat) v) else none

/-- Python modulus a % b: floor-convention remainder (sign of the divisor),
which is Int.fmod; modulus 0 raises ZeroDivisionError (modelled as none). -/
def pyMod (a b : Int) : Option Int :=
  if b = 0 then none else some (Int.fmod a b)

/-- Python list.index(v): index of the first occurrence of v; raises
ValueError when v is absent (modelled as none). -/
def pyIndex (l : List Int) (v : Int) : Option Nat :=
  if v ∈ l then some (l.indexOf v) else none

/-- The notes printed by visualize_fifo_example for each step, as structured
data: empty note (hit), "Add to frame {empty_idx + 1}", and
"Replace page {oldest} at frame {idx + 1}" (frame numbers are 1-based,
exactly the number interpolated into the printed string). -/
inductive VizNote where
  | empty : VizNote
  | addToFrame (frame : Nat) : VizNote
  | replacePage (victim : Int) (frame : Nat) : VizNote
deriving DecidableEq

/-- One row of visualize_fifo_example's output: the referenced page, the
fault flag, the note, and the frames list as displayed after the step. -/
structure StepRecord where
  page : Int
  fault : Bool
  note : VizNote
  snapshot : List Int
deriving DecidableEq

/-- The loop state of visualize_fifo_example: frames, the arrival queue,
and the page_faults counter. -/
structure VizState where
  frames : List Int
  queue : List Int
  faults : Nat
deriving DecidableEq

/-- One iteration of the loop in visualize_fifo_example (lines 216-241).
Python can fail here only at queue.pop(0) on an empty queue (IndexError)
and at frames.index(oldest) when oldest is not resident (ValueError);
frames.index(-1) is guarded by the membership test on the line above it. -/
def vizStep (st : VizState) (page : Int) : Option (VizState × StepRecord) :=
  if page ∈ st.frames then
    some (st, ⟨page, false, VizNote.empty, st.frames⟩)
  else if (-1 : Int) ∈ st.frames then
    let emptyIdx := st.frames.indexOf (-1)
    let frames1 := st.frames.set emptyIdx page
    some (⟨frames1, st.queue ++ [page], st.faults + 1⟩,
          ⟨page, true, VizNote.addToFrame (emptyIdx + 1), frames1⟩)
  else
    match st.queue with
    | [] => none
    | oldest :: rest =>
      match pyIndex st.frames oldest with
      | none => none
      | some idx =>
        let frames1 := st.frames.set idx page
        some (⟨frames1, rest ++ [page], st.faults + 1⟩,
              ⟨page, true, VizNote.replacePage oldest (idx + 1), frames1⟩)

/-- Run the visualize_fifo_example loop over a list of references,
collecting the per-step records. -/
def vizRun (st : VizState) : List Int → Option (VizState × List StepRecord)
  | [] => some (st, [])
  | p :: ps =>
    match vizStep st p with
    | none => none
    | some (st1, r) =>
      match vizRun st1 ps with
      | none => none
      | some (st2, rs) => some (st2, r :: rs)

/-- Initial state of visualize_fifo_example (lines 209-211):
frames = [-1] * page_count, queue = [], page_faults = 0. -/
def vizInit (cap : Nat) : VizState := ⟨List.replicate cap (-1), [], 0⟩

/-- The whole simulation of visualize_fifo_example, generalized over the
frame count and the reference sequence. -/
def vizSim (cap : Nat) (refs : List Int) : Option (VizState × List StepRecord) :=
  vizRun (vizInit cap) refs

/-- The reference sequence hard-coded in visualize_fifo_example (line 200). -/
def exampleRefs : List Int := [7, 0, 1, 2, 0, 3, 0, 4, 2, 3, 0, 3]

/-- The frame count hard-coded in visualize_fifo_example (line 199). -/
def examplePageCount : Nat := 3

/-- The fault-rate computation (page_faults / n) * 100 of lines 179 and 245:
Python raises ZeroDivisionError when n = 0 (modelled as none). -/
def faultRate (faults n : Nat) : Option ℚ :=
  if n = 0 then none else some (((faults : ℚ) / (n : ℚ)) * 100)

/-- The run result of the visualize_fifo_example simulation together with
its fault rate: final state, step records, and rate. -/
def vizRunResult (cap : Nat) (refs : List Int) :
    Option (VizState × List StepRecord × Option ℚ) :=
  (vizSim cap refs).map (fun x => (x.1, x.2, faultRate x.1.faults refs.length))

/-- The notes printed by main for each reference (lines 100, 111, 113), as
structured data; the frame number is the 1-based current_page + 1
interpolated into the printed string (after the reset on line 110 in the
memory-full branch). -/
inductive MainNote where
  | alreadyInMemory : MainNote
  | memoryFullReplace (frame : Int) : MainNote
  | emptyFrameAvailable (frame : Int) : MainNote
deriving DecidableEq

/-- One step of main's trace: the referenced page, page_fault[i] (0 or 1,
as in the source), the printed note, and pre_array after the step. -/
structure MainRecord where
  page : Int
  faultFlag : Nat
  note : MainNote
  snapshot : List Int
deriving DecidableEq

/-- The loop state of main: pre_array, current_page, number_page_fault. -/
structure MainState where
  preArray : List Int
  currentPage : Int
  numberPageFault : Nat
deriving DecidableEq

/-- One iteration of main's loop (lines 93-119). On a fault, current_page
is reset to 0 when it equals page_count (line 109-110), the page is written
at pre_array[current_page] (line 116, IndexError when out of range), and
current_page becomes (current_page + 1) % page_count (line 119,
ZeroDivisionError when page_count = 0). -/
def mainStep (pageCount : Int) (st : MainState) (page : Int) :
    Option (MainState × MainRecord) :=
  if page ∈ st.preArray then
    some (st, ⟨page, 0, MainNote.alreadyInMemory, st.preArray⟩)
  else
    let cp := if st.currentPage = pageCount then 0 else st.currentPage
    let note := if st.currentPage = pageCount then MainNote.memoryFullReplace (cp + 1)
                else MainNote.emptyFrameAvailable (cp + 1)
    match pySet st.preArray cp page with
    | none => none
    | some arr =>
      match pyMod (cp + 1) pageCount with
      | none => none
      | some cp1 =>
        some (⟨arr, cp1, st.numberPageFault + 1⟩, ⟨page, 1, note, arr⟩)

/-- Run main's loop over a list of references, collecting per-step records. -/
def mainRun (pc : Int) (st : MainState) : List Int → Option (MainState × List MainRecord)
  | [] => some (st, [])
  | p :: ps =>
    match mainStep pc st p with
    | none => none
    | some (st1, r) =>
      match mainRun pc st1 ps with
      | none => none
      | some (st2, rs) => some (st2, r :: rs)

/-- Initial state of main (lines 81-86): pre_array = [-1] * page_count
(the empty list for nonpositive counts, as in Python), current_page = 0,
number_page_fault = 0. -/
def mainInit (pc : Int) : MainState := ⟨List.replicate pc.toNat (-1), 0, 0⟩

/-- Main's whole simulation, generalized over page_count and the
reference sequence. -/
def mainSim (pc : Int) (refs : List Int) : Option (MainState × List MainRecord) :=
  mainRun pc (mainInit pc) refs

/-- The input layer's acceptance test for page_count (line 47):
1 <= page_count <= 10; main re-prompts until this holds. -/
def validPageCount (c : Int) : Bool := decide (1 ≤ c ∧ c ≤ 10)

/-- The currently resident pages of a frames list: the entries that are
not the empty-frame marker -1. -/
def resident (l : List Int) : List Int := l.filter (· ≠ -1)

/-- The pages loaded by the fault steps of a record list, in step order. -/
def faultPages (recs : List StepRecord) : List Int :=
  (recs.filter (·.fault)).map (·.page)

/-- The number of distinct pages in a reference sequence. -/
def distinctCount (refs : List Int) : Nat := refs.toFinset.card

/-! ### The bisimulation invariant between main and visualize_fifo_example

The frames array is decomposed as A ++ B, where the circular write pointer
current_page sits at position A.length (the start of B); B is nonempty
because current_page is always reduced modulo page_count. During the fill
phase B consists of empty markers; once memory is full no marker remains.
The arrival queue of the queue-based implementation is the rotation
B ++ A of the array with the markers filtered out. -/
def SimInv (cap : Nat) (stm : MainState) (stv : VizState) : Prop :=
  ∃ A B : List Int,
    stm.preArray = A ++ B ∧
    stv.frames = A ++ B ∧
    B ≠ [] ∧
    A.length + B.length = cap ∧
    stm.currentPage = (A.length : Int) ∧
    stv.queue = (B ++ A).filter (· ≠ -1) ∧
    (-1 : Int) ∉ A ∧
    (B = List.replicate B.length (-1) ∨ (-1 : Int) ∉ A ++ B) ∧
    ((A ++ B).filter (· ≠ -1)).Nodup ∧
    stv.faults = stm.numberPageFault

/-- All run-level facts of the two simulations, established together by one
induction over the reference sequence: both runs succeed, the invariant
holds, the two implementations classify the references identically, the
fault counter counts the fault records, the arrival queue is a suffix of
the load sequence, resident pages were referenced, the fault count is
bounded, and every first occurrence faults. -/
def RunFacts (cap : Nat) (refs : List Int) : Prop :=
  ∃ stm recsM stv recsV,
    mainSim (cap : Int) refs = some (stm, recsM) ∧
    vizSim cap refs = some (stv, recsV) ∧
    SimInv cap stm stv ∧
    recsV.map (·.page) = refs ∧
    recsM.map (·.faultFlag) = recsV.map (fun r => if r.fault then 1 else 0) ∧
    stv.faults = (recsV.filter (·.fault)).length ∧
    stv.queue <:+ faultPages recsV ∧
    (∀ q ∈ stv.frames, q ≠ -1 → q ∈ refs) ∧
    distinctCount refs ≤ stv.faults ∧
    stv.faults ≤ refs.length ∧
    (∀ (i : Nat) (r0 : StepRecord) (p0 : Int), recsV[i]? = some r0 →
      refs[i]? = some p0 → p0 ∉ refs.take i → r0.fault = true)

/-! ### Generic lemmas about running the two loops -/

theorem vizRun_append (st : VizState) (xs ys : List Int) :
    vizRun st (xs ++ ys) =
      (vizRun st xs).bind
        (fun a => (vizRun a.1 ys).map (fun b => (b.1, a.2 ++ b.2))) := by
  induction xs generalizing st with
  | nil =>
    simp only [List.nil_append, vizRun, Option.some_bind]
    cases h : vizRun st ys with
    | none => simp
    | some v => cases v; simp
  | cons p ps ih =>
    simp only [List.cons_append, vizRun, List.append_eq]
    cases hs : vizStep st p with
    | none => simp
    | some v =>
      obtain ⟨st1, r⟩ := v
      simp only [List.append_eq]
      rw [ih st1]
      cases h1 : vizRun st1 ps with
      | none => simp
      | some w =>
        obtain ⟨st2, rs⟩ := w
        cases h2 : vizRun st2 ys with
        | none => simp [h2]
        | some u => cases u; simp [h2]

theorem vizRun_singleton (st : VizState) (p : Int) :
    vizRun st [p] = (vizStep st p).map (fun b => (b.1, [b.2])) := by
  cases h : vizStep st p with
  | none => simp [vizRun, h]
  | some v => cases v; simp [vizRun, h]

theorem mainRun_append (pc : Int) (st : MainState) (xs ys : List Int) :
    mainRun pc st (xs ++ ys) =
      (mainRun pc st xs).bind
        (fun a => (mainRun pc a.1 ys).map (fun b => (b.1, a.2 ++ b.2))) := by
  induction xs generalizing st with
  | nil =>
    simp only [List.nil_append, mainRun, Option.some_bind]
    cases h : mainRun pc st ys with
    | none => simp
    | some v => cases v; simp
  | cons p ps ih =>
    simp only [List.cons_append, mainRun, List.append_eq]
    cases hs : mainStep pc st p with
    | none => simp
    | some v =>
      obtain ⟨st1, r⟩ := v
      simp only [List.append_eq]
      rw [ih st1]
      cases h1 : mainRun pc st1 ps with
      | none => simp
      | some w =>
        obtain ⟨st2, rs⟩ := w
        cases h2 : mainRun pc st2 ys with
        | none => simp [h2]
        | some u => cases u; simp [h2]

theorem mainRun_singleton (pc : Int) (st : MainState) (p : Int) :
    mainRun pc st [p] = (mainStep pc st p).map (fun b => (b.1, [b.2])) := by
  cases h : mainStep pc st p with
  | none => simp [mainRun, h]
  | some v => cases v; simp [mainRun, h]

/-! ### Small list helpers -/

theorem set_append_cons (A : List Int) (b : Int) (B : List Int) (p : Int) :
    (A ++ b :: B).set A.length p = A ++ p :: B := by
  induction A with
  | nil => rfl
  | cons a A ih => simp [List.set, ih]

theorem indexOf_append_cons (A : List Int) (c : Int) (B : List Int) (h : c ∉ A) :
    (A ++ c :: B).indexOf c = A.length := by
  rw [List.indexOf_append_of_not_mem h, List.indexOf_cons_self]
  omega

theorem filter_replicate_marker (k : Nat) :
    (List.replicate k (-1 : Int)).filter (· ≠ -1) = [] := by
  induction k with
  | zero => rfl
  | succ n ih => simp [List.replicate_succ, ih]

theorem filter_no_marker {A : List Int} (h : (-1 : Int) ∉ A) :
    A.filter (· ≠ -1) = A := by
  rw [List.filter_eq_self]
  intro a ha
  simp only [decide_eq_true_eq]
  intro e
  exact h (e ▸ ha)

/-- Helper for safely executing the frame write of main's fault path. -/
theorem pySet_at (A : List Int) (b : Int) (B : List Int) (p : Int) :
    pySet (A ++ b :: B) (A.length : Int) p = some (A ++ p :: B) := by
  unfold pySet
  rw [if_pos (Int.natCast_nonneg _)]
  rw [if_pos]
  · rw [Int.toNat_natCast, set_append_cons]
  · rw [Int.toNat_natCast]
    simp [List.length_append]

theorem pyMod_lt {a b : Int} (h0 : 0 ≤ a) (h : a < b) : pyMod a b = some a := by
  unfold pyMod
  rw [if_neg (by omega), Int.fmod_eq_of_lt h0 h]

theorem pyMod_self {b : Int} (h : b ≠ 0) : pyMod b b = some 0 := by
  unfold pyMod
  rw [if_neg h, Int.fmod_self]

theorem pyIndex_mem {l : List Int} {v : Int} (h : v ∈ l) :
    pyIndex l v = some (l.indexOf v) := by
  unfold pyIndex
  rw [if_pos h]

theorem simInv_init (cap : Nat) (hcap : 1 ≤ cap) :
    SimInv cap (mainInit (cap : Int)) (vizInit cap) := by
  refine ⟨[], List.replicate cap (-1), ?_, ?_, ?_, ?_, ?_, ?_, ?_, ?_, ?_, ?_⟩
  · simp [mainInit]
  · simp [vizInit]
  · intro h
    have h2 := congrArg List.length h
    simp at h2
    omega
  · simp
  · simp [mainInit]
  · simp [vizInit, filter_replicate_marker]
  · simp
  · exact Or.inl (by simp)
  · simp [filter_replicate_marker]
  · simp [vizInit, mainInit]

/-! ### Step computation lemmas -/

theorem step_hit {cap : Nat} {stm : MainState} {stv : VizState}
    (inv : SimInv cap stm stv) {p : Int} (hm : p ∈ stv.frames) :
    mainStep (cap : Int) stm p =
      some (stm, ⟨p, 0, MainNote.alreadyInMemory, stm.preArray⟩) ∧
    vizStep stv p = some (stv, ⟨p, false, VizNote.empty, stv.frames⟩) := by
  obtain ⟨A, B, hpre, hfr, -, -, -, -, -, -, -, -⟩ := inv
  have hm' : p ∈ stm.preArray := by rw [hpre, ← hfr]; exact hm
  exact ⟨by simp [mainStep, hm'], by simp [vizStep, hm]⟩

theorem mainStep_fault (cap : Nat) (A : List Int) (b : Int) (B' : List Int)
    (cp : Int) (npf : Nat) (p : Int)
    (hm : p ∉ A ++ b :: B') (hcp : cp = (A.length : Int))
    (hcap : A.length + B'.length + 1 = cap) :
    mainStep (cap : Int) ⟨A ++ b :: B', cp, npf⟩ p =
      some (⟨A ++ p :: B', Int.fmod ((A.length : Int) + 1) (cap : Int), npf + 1⟩,
            ⟨p, 1, MainNote.emptyFrameAvailable ((A.length : Int) + 1), A ++ p :: B'⟩) := by
  subst hcp
  have hne : ¬ ((A.length : Int) = (cap : Int)) := by omega
  have hcap0 : ¬ ((cap : Int) = 0) := by omega
  simp [mainStep, hm, hne, pySet_at, pyMod, hcap0]

theorem vizStep_fill (A B' qu : List Int) (fl : Nat) (p : Int)
    (hm : p ∉ A ++ (-1 : Int) :: B') (hA : (-1 : Int) ∉ A) :
    vizStep ⟨A ++ (-1 : Int) :: B', qu, fl⟩ p =
      some (⟨A ++ p :: B', qu ++ [p], fl + 1⟩,
            ⟨p, true, VizNote.addToFrame (A.length + 1), A ++ p :: B'⟩) := by
  have hmem : (-1 : Int) ∈ A ++ (-1 : Int) :: B' :=
    List.mem_append_right _ (List.mem_cons_self _ _)
  simp [vizStep, hm, hmem, indexOf_append_cons _ _ _ hA, set_append_cons]

theorem vizStep_full (A : List Int) (b : Int) (B' rest : List Int) (fl : Nat) (p : Int)
    (hm : p ∉ A ++ b :: B') (hno : (-1 : Int) ∉ A ++ b :: B') (hbA : b ∉ A) :
    vizStep ⟨A ++ b :: B', b :: rest, fl⟩ p =
      some (⟨A ++ p :: B', rest ++ [p], fl + 1⟩,
            ⟨p, true, VizNote.replacePage b (A.length + 1), A ++ p :: B'⟩) := by
  have hbmem : b ∈ A ++ b :: B' :=
    List.mem_append_right _ (List.mem_cons_self _ _)
  simp [vizStep, hm, hno, pyIndex_mem hbmem, indexOf_append_cons _ _ _ hbA,
    set_append_cons]

/-- Inserting a fresh non-marker page in the middle keeps the resident
pages duplicate-free. -/
theorem nodup_insert_middle (A B : List Int) (p : Int)
    (hnd : ((A ++ B).filter (· ≠ -1)).Nodup) (hp : p ≠ -1)
    (hpA : p ∉ A) (hpB : p ∉ B) :
    (((A ++ [p]) ++ B).filter (· ≠ -1)).Nodup := by
  have hass : (A ++ [p]) ++ B = A ++ p :: B := by simp
  rw [hass]
  rw [List.filter_append] at hnd ⊢
  rw [List.filter_cons_of_pos (by simp [hp])]
  rw [List.nodup_middle, List.nodup_cons]
  constructor
  · intro hmem
    rcases List.mem_append.mp hmem with h | h
    · exact hpA (List.mem_of_mem_filter h)
    · exact hpB (List.mem_of_mem_filter h)
  · exact hnd

/-- Re-establishing the bisimulation invariant after a fault wrote page p
at the pointer position. -/
theorem simInv_after (cap : Nat) (A B' : List Int) (p : Int) (npf : Nat)
    (Q : List Int)
    (hlen : A.length + B'.length + 1 = cap)
    (hA : (-1 : Int) ∉ A) (hp : p ≠ -1)
    (hdisjB : B' = List.replicate B'.length (-1) ∨ (-1 : Int) ∉ A ++ B')
    (hndAB : ((A ++ B').filter (· ≠ -1)).Nodup)
    (hpA : p ∉ A) (hpB : p ∉ B')
    (hQ : Q = (B' ++ (A ++ [p])).filter (· ≠ -1)) :
    SimInv cap ⟨A ++ p :: B', Int.fmod ((A.length : Int) + 1) (cap : Int), npf + 1⟩
      ⟨A ++ p :: B', Q, npf + 1⟩ := by
  have hmem_np : (-1 : Int) ∉ A ++ [p] := by
    intro h
    rcases List.mem_append.mp h with h | h
    · exact hA h
    · rw [List.mem_singleton] at h
      exact hp h.symm
  by_cases hB'e : B' = []
  · subst hB'e
    refine ⟨[], A ++ [p], by simp, by simp, by simp, ?_, ?_, ?_, by simp,
      Or.inr ?_, ?_, rfl⟩
    · simp at hlen ⊢
      omega
    · have hce : ((A.length : Int) + 1) = (cap : Int) := by
        simp at hlen
        omega
      rw [hce, Int.fmod_self]
      simp
    · rw [hQ]
      simp
    · simpa using hmem_np
    · have h9 := nodup_insert_middle A [] p (by simpa using hndAB) hp hpA (by simp)
      simpa using h9
  · refine ⟨A ++ [p], B', by simp, by simp, hB'e, ?_, ?_, hQ, hmem_np, ?_, ?_, rfl⟩
    · simp
      omega
    · have hlt : (A.length : Int) + 1 < (cap : Int) := by
        have hb := List.length_pos.mpr hB'e
        omega
      rw [Int.fmod_eq_of_lt (by omega) hlt]
      simp
    · rcases hdisjB with h | h
      · exact Or.inl h
      · refine Or.inr ?_
        intro hmm
        rcases List.mem_append.mp hmm with h1 | h1
        · exact hmem_np h1
        · exact h (List.mem_append.mpr (Or.inr h1))
    · exact nodup_insert_middle A B' p hndAB hp hpA hpB

/-- A fault step: both implementations succeed, write the page at the same
slot, and preserve the bisimulation invariant. -/
theorem step_fault {cap : Nat} {stm : MainState} {stv : VizState}
    (inv : SimInv cap stm stv) {p : Int} (hp : p ≠ -1) (hm : p ∉ stv.frames) :
    ∃ stm2 stv2 rv,
      mainStep (cap : Int) stm p =
        some (stm2, ⟨p, 1, MainNote.emptyFrameAvailable (stm.currentPage + 1),
          stm2.preArray⟩) ∧
      vizStep stv p = some (stv2, rv) ∧
      SimInv cap stm2 stv2 ∧
      rv.page = p ∧ rv.fault = true ∧
      stv2.faults = stv.faults + 1 ∧
      stm2.numberPageFault = stm.numberPageFault + 1 ∧
      (stv2.queue = stv.queue ++ [p] ∨ stv2.queue = stv.queue.tail ++ [p]) ∧
      (∀ q ∈ stv2.frames, q ∈ stv.frames ∨ q = p) := by
  obtain ⟨arrM, cpM, npfM⟩ := stm
  obtain ⟨arrV, quV, flV⟩ := stv
  obtain ⟨A, B, hpre, hfr, hBne, hlen, hcp, hq, hA, hdisj, hnd, hfc⟩ := inv
  dsimp only at hpre hfr hlen hcp hq hfc hm ⊢
  subst hpre hfr hcp hfc
  obtain ⟨b, B', rfl⟩ : ∃ b B', B = b :: B' := by
    cases B with
    | nil => exact absurd rfl hBne
    | cons x xs => exact ⟨x, xs, rfl⟩
  have hlen' : A.length + B'.length + 1 = cap := by
    simp at hlen
    omega
  have hpA : p ∉ A := fun h => hm (List.mem_append.mpr (Or.inl h))
  have hpB' : p ∉ B' :=
    fun h => hm (List.mem_append.mpr (Or.inr (List.mem_cons_of_mem _ h)))
  have hmain := mainStep_fault cap A b B' (A.length : Int) flV p hm rfl hlen'
  have hndAB : ((A ++ B').filter (· ≠ -1)).Nodup := by
    refine hnd.sublist (List.Sublist.filter _ ?_)
    exact (List.sublist_cons_self b B').append_left A
  rcases hdisj with hrep | hnomark
  · -- fill phase: the slot under the pointer is an empty marker
    rw [List.length_cons, List.replicate_succ] at hrep
    injection hrep with hb hB'rep
    subst hb
    have hq2 : quV = A := by
      rw [hq, List.filter_append, List.filter_cons_of_neg (by simp), hB'rep,
        filter_replicate_marker, filter_no_marker hA, List.nil_append]
    rw [hq2]
    have hviz := vizStep_fill A B' A flV p hm hA
    refine ⟨⟨A ++ p :: B', Int.fmod ((A.length : Int) + 1) (cap : Int), flV + 1⟩,
      ⟨A ++ p :: B', A ++ [p], flV + 1⟩,
      ⟨p, true, VizNote.addToFrame (A.length + 1), A ++ p :: B'⟩,
      hmain, hviz, ?_, rfl, rfl, rfl, rfl, Or.inl rfl, ?_⟩
    · refine simInv_after cap A B' p flV _ hlen' hA hp (Or.inl hB'rep) hndAB hpA hpB' ?_
      rw [List.filter_append, hB'rep, filter_replicate_marker, List.nil_append,
        List.filter_append, filter_no_marker hA]
      simp [hp]
    · intro q hq3
      rcases List.mem_append.mp hq3 with h | h
      · exact Or.inl (List.mem_append.mpr (Or.inl h))
      · rcases List.mem_cons.mp h with h | h
        · exact Or.inr h
        · exact Or.inl (List.mem_append.mpr (Or.inr (List.mem_cons_of_mem _ h)))
  · -- full phase: no empty marker remains, the queue front is evicted
    have hndid : (A ++ b :: B').Nodup := by
      rw [filter_no_marker hnomark] at hnd
      exact hnd
    have hbA : b ∉ A := by
      have h2 := List.nodup_middle.mp hndid
      rw [List.nodup_cons] at h2
      exact fun h => h2.1 (List.mem_append.mpr (Or.inl h))
    have hnoBA : (-1 : Int) ∉ (b :: B') ++ A := by
      intro h
      rcases List.mem_append.mp h with h1 | h1
      · exact hnomark (List.mem_append.mpr (Or.inr h1))
      · exact hnomark (List.mem_append.mpr (Or.inl h1))
    have hq2 : quV = b :: (B' ++ A) := by
      rw [hq, filter_no_marker hnoBA]
      simp
    subst hq2
    have hviz := vizStep_full A b B' (B' ++ A) flV p hm hnomark hbA
    refine ⟨⟨A ++ p :: B', Int.fmod ((A.length : Int) + 1) (cap : Int), flV + 1⟩,
      ⟨A ++ p :: B', (B' ++ A) ++ [p], flV + 1⟩,
      ⟨p, true, VizNote.replacePage b (A.length + 1), A ++ p :: B'⟩,
      hmain, hviz, ?_, rfl, rfl, rfl, rfl, Or.inr rfl, ?_⟩
    · refine simInv_after cap A B' p flV _ hlen' hA hp (Or.inr ?_) hndAB hpA hpB' ?_
      · intro h
        rcases List.mem_append.mp h with h1 | h1
        · exact hnomark (List.mem_append.mpr (Or.inl h1))
        · exact hnomark
            (List.mem_append.mpr (Or.inr (List.mem_cons_of_mem _ h1)))
      · have hnoQ : (-1 : Int) ∉ B' ++ (A ++ [p]) := by
          intro h
          rcases List.mem_append.mp h with h1 | h1
          · exact hnomark
              (List.mem_append.mpr (Or.inr (List.mem_cons_of_mem _ h1)))
          · rcases List.mem_append.mp h1 with h2 | h2
            · exact hnomark (List.mem_append.mpr (Or.inl h2))
            · rw [List.mem_singleton] at h2
              exact hp h2.symm
        rw [filter_no_marker hnoQ]
        simp
    · intro q hq3
      rcases List.mem_append.mp hq3 with h | h
      · exact Or.inl (List.mem_append.mpr (Or.inl h))
      · rcases List.mem_cons.mp h with h | h
        · exact Or.inr h
        · exact Or.inl (List.mem_append.mpr (Or.inr (List.mem_cons_of_mem _ h)))

/-- Combined step lemma: from any pair of states related by the invariant,
one loop iteration of each implementation succeeds, classifies the
reference identically, and preserves the invariant. -/
theorem step_both {cap : Nat} {stm : MainState} {stv : VizState}
    (inv : SimInv cap stm stv) {p : Int} (hp : p ≠ -1) :
    ∃ stm2 rm stv2 rv,
      mainStep (cap : Int) stm p = some (stm2, rm) ∧
      vizStep stv p = some (stv2, rv) ∧
      SimInv cap stm2 stv2 ∧
      rv.page = p ∧
      rm.faultFlag = (if rv.fault then 1 else 0) ∧
      (rv.fault = true ↔ p ∉ stv.frames) ∧
      (rv.fault = false → stm2 = stm ∧ stv2 = stv) ∧
      (rv.fault = true → stv2.faults = stv.faults + 1 ∧
        (stv2.queue = stv.queue ++ [p] ∨ stv2.queue = stv.queue.tail ++ [p])) ∧
      (∀ q ∈ stv2.frames, q ∈ stv.frames ∨ q = p) ∧
      ((rm.note = MainNote.alreadyInMemory ∧ rm.faultFlag = 0) ∨
        (∃ f, rm.note = MainNote.emptyFrameAvailable f ∧ rm.faultFlag = 1)) := by
  by_cases hm : p ∈ stv.frames
  · obtain ⟨h1, h2⟩ := step_hit inv hm
    refine ⟨stm, _, stv, _, h1, h2, inv, rfl, rfl, ?_, fun _ => ⟨rfl, rfl⟩, ?_,
      fun q hq => Or.inl hq, Or.inl ⟨rfl, rfl⟩⟩
    · simp [hm]
    · intro hcon
      simp at hcon
  · obtain ⟨stm2, stv2, rv, h1, h2, hinv, hpg, hft, hfl, hnf, hqu, hsub⟩ :=
      step_fault inv hp hm
    refine ⟨stm2, _, stv2, rv, h1, h2, hinv, hpg, ?_, ?_, ?_, ?_, hsub, ?_⟩
    · simp [hft]
    · simp [hft, hm]
    · intro hcon
      rw [hft] at hcon
      cases hcon
    · intro _
      exact ⟨hfl, hqu⟩
    · exact Or.inr ⟨stm.currentPage + 1, rfl, rfl⟩

/-! ### Run-level facts -/

theorem vizSim_snoc (cap : Nat) (refs : List Int) (p : Int) :
    vizSim cap (refs ++ [p]) =
      (vizSim cap refs).bind
        (fun a => (vizStep a.1 p).map (fun b => (b.1, a.2 ++ [b.2]))) := by
  unfold vizSim
  rw [vizRun_append]
  cases h : vizRun (vizInit cap) refs with
  | none => rfl
  | some a =>
    obtain ⟨st, recs⟩ := a
    rw [Option.some_bind, Option.some_bind, vizRun_singleton]
    cases h2 : vizStep st p with
    | none => rfl
    | some b => cases b; simp

theorem mainSim_snoc (pc : Int) (refs : List Int) (p : Int) :
    mainSim pc (refs ++ [p]) =
      (mainSim pc refs).bind
        (fun a => (mainStep pc a.1 p).map (fun b => (b.1, a.2 ++ [b.2]))) := by
  unfold mainSim
  rw [mainRun_append]
  cases h : mainRun pc (mainInit pc) refs with
  | none => rfl
  | some a =>
    obtain ⟨st, recs⟩ := a
    rw [Option.some_bind, Option.some_bind, mainRun_singleton]
    cases h2 : mainStep pc st p with
    | none => rfl
    | some b => cases b; simp

theorem faultPages_append (a b : List StepRecord) :
    faultPages (a ++ b) = faultPages a ++ faultPages b := by
  simp [faultPages, List.filter_append]

theorem distinctCount_snoc_mem {xs : List Int} {p : Int} (h : p ∈ xs) :
    distinctCount (xs ++ [p]) = distinctCount xs := by
  unfold distinctCount
  rw [List.toFinset_append]
  have h1 : ([p] : List Int).toFinset = {p} := by simp
  rw [h1, Finset.union_eq_left.mpr (by simp [h])]

theorem distinctCount_snoc_not_mem {xs : List Int} {p : Int} (h : p ∉ xs) :
    distinctCount (xs ++ [p]) = distinctCount xs + 1 := by
  unfold distinctCount
  rw [List.toFinset_append]
  have h1 : ([p] : List Int).toFinset = {p} := by simp
  rw [h1, Finset.union_comm, ← Finset.insert_eq]
  exact Finset.card_insert_of_not_mem (by simp [h])

theorem runFacts (cap : Nat) (hcap : 1 ≤ cap) (refs : List Int)
    (hrefs : ∀ p ∈ refs, p ≠ -1) : RunFacts cap refs := by
  induction refs using List.reverseRecOn with
  | nil =>
    refine ⟨mainInit (cap : Int), [], vizInit cap, [], rfl, rfl,
      simInv_init cap hcap, rfl, rfl, ?_, List.nil_suffix, ?_, ?_, ?_, ?_⟩
    · simp [vizInit]
    · intro q hq hne
      exact absurd (List.eq_of_mem_replicate hq) hne
    · simp [distinctCount]
    · simp [vizInit]
    · intro i r0 p0 hr0
      simp at hr0
  | append_singleton xs p ih =>
    have hxs : ∀ q ∈ xs, q ≠ -1 :=
      fun q hq => hrefs q (List.mem_append.mpr (Or.inl hq))
    have hp : p ≠ -1 :=
      hrefs p (List.mem_append.mpr (Or.inr (List.mem_singleton.mpr rfl)))
    obtain ⟨stm, recsM, stv, recsV, hms, hvs, hinv, hpages, hflags, hfcount,
      hsuffix, hmem, hdist, hub, hfirst⟩ := ih hxs
    obtain ⟨stm2, rm, stv2, rv, h1, h2, hinv2, hpg, hflag, hfiff, hhit, hfault,
      hsub, hnote⟩ := step_both hinv hp
    have hlenV : recsV.length = xs.length := by
      have h3 := congrArg List.length hpages
      simpa using h3
    have hmono : stv.faults ≤ stv2.faults := by
      by_cases hf : rv.fault
      · have h3 := (hfault hf).1
        omega
      · have heq := hhit (by simpa using hf)
        rw [heq.2]
    refine ⟨stm2, recsM ++ [rm], stv2, recsV ++ [rv], ?_, ?_, hinv2, ?_, ?_,
      ?_, ?_, ?_, ?_, ?_, ?_⟩
    · rw [mainSim_snoc, hms, Option.some_bind, h1]
      rfl
    · rw [vizSim_snoc, hvs, Option.some_bind, h2]
      rfl
    · simp [hpages, hpg]
    · simp [hflags, hflag]
    · rw [List.filter_append]
      by_cases hf : rv.fault
      · rw [(hfault hf).1, hfcount]
        simp [hf]
      · have heq := hhit (by simpa using hf)
        rw [heq.2, hfcount]
        simp [hf]
    · rw [faultPages_append]
      by_cases hf : rv.fault
      · have hq2 := (hfault hf).2
        have hfp : faultPages [rv] = [p] := by simp [faultPages, hf, hpg]
        rw [hfp]
        rcases hq2 with hq2 | hq2
        · rw [hq2]
          obtain ⟨t, ht⟩ := hsuffix
          exact ⟨t, by rw [← List.append_assoc, ht]⟩
        · rw [hq2]
          have htail : stv.queue.tail <:+ faultPages recsV :=
            (List.tail_suffix stv.queue).trans hsuffix
          obtain ⟨t, ht⟩ := htail
          exact ⟨t, by rw [← List.append_assoc, ht]⟩
      · have heq := hhit (by simpa using hf)
        have hfp : faultPages [rv] = [] := by simp [faultPages, hf]
        rw [hfp, List.append_nil, heq.2]
        exact hsuffix
    · intro q hq hne
      rcases hsub q hq with h | h
      · exact List.mem_append.mpr (Or.inl (hmem q h hne))
      · exact List.mem_append.mpr (Or.inr (by simp [h]))
    · by_cases hpxs : p ∈ xs
      · rw [distinctCount_snoc_mem hpxs]
        exact le_trans hdist hmono
      · rw [distinctCount_snoc_not_mem hpxs]
        have hpf : p ∉ stv.frames := by
          intro hmm
          exact hpxs (hmem p hmm hp)
        have hf : rv.fault = true := hfiff.mpr hpf
        have h3 := (hfault hf).1
        omega
    · have h3 : stv2.faults ≤ stv.faults + 1 := by
        by_cases hf : rv.fault
        · rw [(hfault hf).1]
        · rw [(hhit (by simpa using hf)).2]
          omega
      simp only [List.length_append, List.length_singleton]
      omega
    · intro i r0 p0 hr0 hp0 hnotin
      rcases Nat.lt_trichotomy i xs.length with hlt | heq | hgt
      · rw [List.getElem?_append_left (by omega : i < recsV.length)] at hr0
        rw [List.getElem?_append_left hlt] at hp0
        have e2 : (xs ++ [p]).take i = xs.take i := by
          rw [List.take_append_eq_append_take]
          have h4 : i - xs.length = 0 := by omega
          rw [h4]
          simp
        rw [e2] at hnotin
        exact hfirst i r0 p0 hr0 hp0 hnotin
      · subst heq
        rw [← hlenV, List.getElem?_concat_length] at hr0
        rw [List.getElem?_concat_length] at hp0
        rw [List.take_left] at hnotin
        obtain rfl : rv = r0 := by
          injection hr0 with h4
        obtain rfl : p = p0 := by
          injection hp0 with h4
        have hpf : p ∉ stv.frames := by
          intro hmm
          exact hnotin (hmem p hmm hp)
        exact hfiff.mpr hpf
      · rw [List.getElem?_eq_none (by simp; omega)] at hp0
        cases hp0

/-! ### Main-only loop invariant (no assumption on page values) -/

/-- For page_count ≥ 1, main's loop runs to completion from any state with
the array of the right length and 0 ≤ current_page < page_count, keeps that
pointer invariant, and only ever produces the hit note or the
empty-frame-available note. -/
theorem mainRun_inv (pc : Int) (hpc : 1 ≤ pc) :
    ∀ (refs : List Int) (st : MainState),
      st.preArray.length = pc.toNat → 0 ≤ st.currentPage → st.currentPage < pc →
      ∃ st2 recs, mainRun pc st refs = some (st2, recs) ∧
        st2.preArray.length = pc.toNat ∧ 0 ≤ st2.currentPage ∧
        st2.currentPage < pc ∧
        ∀ r ∈ recs, (r.note = MainNote.alreadyInMemory ∧ r.faultFlag = 0) ∨
          (∃ f, r.note = MainNote.emptyFrameAvailable f ∧ r.faultFlag = 1) := by
  intro refs
  induction refs with
  | nil =>
    intro st h1 h2 h3
    exact ⟨st, [], rfl, h1, h2, h3, by simp⟩
  | cons p ps ih =>
    intro st h1 h2 h3
    by_cases hm : p ∈ st.preArray
    · have hstep : mainStep pc st p =
          some (st, ⟨p, 0, MainNote.alreadyInMemory, st.preArray⟩) := by
        simp [mainStep, hm]
      obtain ⟨st2, recs, hrun, g1, g2, g3, g4⟩ := ih st h1 h2 h3
      refine ⟨st2, (⟨p, 0, MainNote.alreadyInMemory, st.preArray⟩ : MainRecord) :: recs,
        by simp [mainRun, hstep, hrun], g1, g2, g3, ?_⟩
      intro r hr
      rcases List.mem_cons.mp hr with h | h
      · subst h
        exact Or.inl ⟨rfl, rfl⟩
      · exact g4 r h
    · have hcpne : ¬ (st.currentPage = pc) := by omega
      have hset : pySet st.preArray st.currentPage p =
          some (st.preArray.set st.currentPage.toNat p) := by
        unfold pySet
        rw [if_pos h2, if_pos (by omega)]
      have hmod : pyMod (st.currentPage + 1) pc =
          some (Int.fmod (st.currentPage + 1) pc) := by
        unfold pyMod
        rw [if_neg (by omega)]
      have hstep : mainStep pc st p =
          some (⟨st.preArray.set st.currentPage.toNat p,
            Int.fmod (st.currentPage + 1) pc, st.numberPageFault + 1⟩,
            ⟨p, 1, MainNote.emptyFrameAvailable (st.currentPage + 1),
              st.preArray.set st.currentPage.toNat p⟩) := by
        simp [mainStep, hm, hcpne, hset, hmod]
      have hlen2 : (st.preArray.set st.currentPage.toNat p).length = pc.toNat := by
        simp [h1]
      have hmod0 : 0 ≤ Int.fmod (st.currentPage + 1) pc :=
        Int.fmod_nonneg' _ (by omega)
      have hmodlt : Int.fmod (st.currentPage + 1) pc < pc :=
        Int.fmod_lt_of_pos _ (by omega)
      obtain ⟨st2, recs, hrun, g1, g2, g3, g4⟩ :=
        ih ⟨st.preArray.set st.currentPage.toNat p,
          Int.fmod (st.currentPage + 1) pc, st.numberPageFault + 1⟩
          hlen2 hmod0 hmodlt
      refine ⟨st2, (⟨p, 1, MainNote.emptyFrameAvailable (st.currentPage + 1),
        st.preArray.set st.currentPage.toNat p⟩ : MainRecord) :: recs,
        by simp [mainRun, hstep, hrun], g1, g2, g3, ?_⟩
      intro r hr
      rcases List.mem_cons.mp hr with h | h
      · subst h
        exact Or.inr ⟨st.currentPage + 1, rfl, rfl⟩
      · exact g4 r h

/-- Index lookup at the split point of an append. -/
theorem getElem_opt_append_cons (A : List Int) (b : Int) (B : List Int) :
    (A ++ b :: B)[A.length]? = some b := by
  induction A with
  | nil => simp
  | cons a A ih => simpa using ih

/-! ### Claims -/

/-- C1 (counterexample): the worked example of visualize_fifo_example
(frames = 3, references = [7,0,1,2,0,3,0,4,2,3,0,3]) does not report 9
total page faults. -/
theorem C1_counterexample :
    ¬ ((vizSim examplePageCount exampleRefs).map (fun x => x.1.faults) = some 9) := by
  decide

/-- C1 (amended): the worked example reports exactly 10 total page faults,
in the queue-based implementation and in main's circular-pointer
implementation alike. -/
theorem C1_total_faults :
    (vizSim examplePageCount exampleRefs).map (fun x => x.1.faults) = some 10 ∧
    (mainSim (examplePageCount : Int) exampleRefs).map
      (fun x => x.1.numberPageFault) = some 10 := by
  exact ⟨rfl, rfl⟩

/-- C2: for every non-empty reference sequence of valid page ids and every
frame capacity ≥ 1, the simulation succeeds, the total fault count lies
between min(capacity, distinct page count) and the sequence length, and the
step processing the first occurrence of a page is always a fault. -/
theorem C2_fault_bounds (cap : Nat) (refs : List Int)
    (hcap : 1 ≤ cap) (_hne : refs ≠ []) (hval : ∀ p ∈ refs, p ≠ -1) :
    ∃ st recs, vizSim cap refs = some (st, recs) ∧
      min cap (distinctCount refs) ≤ st.faults ∧
      st.faults ≤ refs.length ∧
      (∀ (i : Nat) (r0 : StepRecord) (p0 : Int), recs[i]? = some r0 →
        refs[i]? = some p0 → p0 ∉ refs.take i → r0.fault = true) := by
  obtain ⟨stm, recsM, stv, recsV, hms, hvs, hinv, hpages, hflags, hfcount,
    hsuffix, hmem, hdist, hub, hfirst⟩ := runFacts cap hcap refs hval
  exact ⟨stv, recsV, hvs, le_trans (min_le_right _ _) hdist, hub, hfirst⟩

/-- C2 (witness): the bounds at frames = 3 on the worked example. -/
theorem C2_witness :
    (1 ≤ 3 ∧ exampleRefs ≠ [] ∧ (∀ p ∈ exampleRefs, p ≠ -1)) ∧
    (∃ st recs, vizSim 3 exampleRefs = some (st, recs) ∧
      min 3 (distinctCount exampleRefs) ≤ st.faults ∧
      st.faults ≤ exampleRefs.length ∧
      (∀ (i : Nat) (r0 : StepRecord) (p0 : Int), recs[i]? = some r0 →
        exampleRefs[i]? = some p0 → p0 ∉ exampleRefs.take i → r0.fault = true)) :=
  ⟨⟨by decide, by decide, by decide⟩,
    C2_fault_bounds 3 exampleRefs (by decide) (by decide) (by decide)⟩

/-- C3: after processing any prefix of the reference sequence, the resident
(non-marker) pages of the Frame Set are duplicate-free and number at most
frame_capacity; the two implementations moreover hold identical frames. -/
theorem C3_frame_occupancy (cap : Nat) (refs : List Int) (k : Nat)
    (hcap : 1 ≤ cap) (hval : ∀ p ∈ refs, p ≠ -1) :
    ∃ stm recsM stv recsV,
      mainSim (cap : Int) (refs.take k) = some (stm, recsM) ∧
      vizSim cap (refs.take k) = some (stv, recsV) ∧
      stv.frames = stm.preArray ∧
      (resident stv.frames).Nodup ∧
      (resident stv.frames).length ≤ cap := by
  have hval2 : ∀ p ∈ refs.take k, p ≠ -1 :=
    fun p hp => hval p (List.take_subset k refs hp)
  obtain ⟨stm, recsM, stv, recsV, hms, hvs, hinv, -, -, -, -, -, -, -, -⟩ :=
    runFacts cap hcap (refs.take k) hval2
  obtain ⟨A, B, hpre, hfr, hBne, hlen, hcp, hq, hA, hdisj, hnd, hfc⟩ := hinv
  refine ⟨stm, recsM, stv, recsV, hms, hvs, by rw [hpre, hfr], ?_, ?_⟩
  · rw [hfr]
    exact hnd
  · rw [hfr]
    calc (resident (A ++ B)).length ≤ (A ++ B).length := List.length_filter_le _ _
      _ = cap := by rw [List.length_append]; exact hlen

/-- C3 (witness): the occupancy bound after 7 steps of the worked example
at frames = 3. -/
theorem C3_witness :
    (1 ≤ 3 ∧ (∀ p ∈ exampleRefs, p ≠ -1)) ∧
    (∃ stm recsM stv recsV,
      mainSim 3 (exampleRefs.take 7) = some (stm, recsM) ∧
      vizSim 3 (exampleRefs.take 7) = some (stv, recsV) ∧
      stv.frames = stm.preArray ∧
      (resident stv.frames).Nodup ∧
      (resident stv.frames).length ≤ 3) :=
  ⟨⟨by decide, by decide⟩,
    C3_frame_occupancy 3 exampleRefs 7 (by decide) (by decide)⟩

/-- C4: at every step boundary the Arrival Queue holds exactly the resident
pages of the Frame Set (as a duplicate-free set), its length never exceeds
the capacity, and it is a suffix of the load sequence, i.e. it lists the
resident pages oldest arrival first. -/
theorem C4_queue_invariant (cap : Nat) (refs : List Int) (k : Nat)
    (hcap : 1 ≤ cap) (hval : ∀ p ∈ refs, p ≠ -1) :
    ∃ st recs, vizSim cap (refs.take k) = some (st, recs) ∧
      st.queue.toFinset = (resident st.frames).toFinset ∧
      st.queue.Nodup ∧
      st.queue.length ≤ cap ∧
      st.queue <:+ faultPages recs := by
  have hval2 : ∀ p ∈ refs.take k, p ≠ -1 :=
    fun p hp => hval p (List.take_subset k refs hp)
  obtain ⟨stm, recsM, stv, recsV, hms, hvs, hinv, -, -, -, hsuffix, -, -, -, -⟩ :=
    runFacts cap hcap (refs.take k) hval2
  obtain ⟨A, B, hpre, hfr, hBne, hlen, hcp, hq, hA, hdisj, hnd, hfc⟩ := hinv
  have hperm : stv.queue.Perm (resident stv.frames) := by
    rw [hq, hfr]
    exact List.Perm.filter _ List.perm_append_comm
  refine ⟨stv, recsV, hvs, List.toFinset_eq_of_perm _ _ hperm, ?_, ?_, hsuffix⟩
  · refine (List.Perm.nodup_iff hperm).mpr ?_
    rw [hfr]
    exact hnd
  · rw [hq]
    calc ((B ++ A).filter (· ≠ -1)).length
        ≤ (B ++ A).length := List.length_filter_le _ _
      _ = cap := by rw [List.length_append]; omega

/-- C4 (witness): the queue invariant after 9 steps of the worked example
at frames = 3. -/
theorem C4_witness :
    (1 ≤ 3 ∧ (∀ p ∈ exampleRefs, p ≠ -1)) ∧
    (∃ st recs, vizSim 3 (exampleRefs.take 9) = some (st, recs) ∧
      st.queue.toFinset = (resident st.frames).toFinset ∧
      st.queue.Nodup ∧
      st.queue.length ≤ 3 ∧
      st.queue <:+ faultPages recs) :=
  ⟨⟨by decide, by decide⟩,
    C4_queue_invariant 3 exampleRefs 9 (by decide) (by decide)⟩

/-- C5: a step whose referenced page is resident is recorded with
fault = false (respectively page_fault 0 and the already-in-memory note in
main) and leaves the state completely unchanged; the recorded snapshot is
the unchanged frames. -/
theorem C5_hit_no_change (stv : VizState) (stm : MainState) (pc p : Int)
    (h1 : p ∈ stv.frames) (h2 : p ∈ stm.preArray) :
    vizStep stv p = some (stv, ⟨p, false, VizNote.empty, stv.frames⟩) ∧
    mainStep pc stm p =
      some (stm, ⟨p, 0, MainNote.alreadyInMemory, stm.preArray⟩) :=
  ⟨by simp [vizStep, h1], by simp [mainStep, h2]⟩

/-- C5 (witness): a concrete hit step on a one-frame state holding page 5. -/
theorem C5_witness :
    ((5 : Int) ∈ [(5 : Int)] ∧ (5 : Int) ∈ [(5 : Int)]) ∧
    (vizStep ⟨[5], [5], 1⟩ 5 =
        some (⟨[5], [5], 1⟩, ⟨5, false, VizNote.empty, [5]⟩) ∧
      mainStep 1 ⟨[5], 1, 1⟩ 5 =
        some (⟨[5], 1, 1⟩, ⟨5, 0, MainNote.alreadyInMemory, [5]⟩)) :=
  ⟨⟨by decide, by decide⟩,
    C5_hit_no_change ⟨[5], [5], 1⟩ ⟨[5], 1, 1⟩ 1 5 (by decide) (by decide)⟩

/-- C6: at any reachable state where the referenced page is absent and no
empty marker remains, the evicted victim is exactly the front of the
Arrival Queue: it is removed from the queue and overwritten in its frame
slot, the new page takes that slot and is appended to the back of the
queue, and the recorded note names the victim. -/
theorem C6_fifo_eviction (cap : Nat) (refs : List Int) (p : Int)
    (st : VizState) (recs : List StepRecord)
    (hcap : 1 ≤ cap) (hval : ∀ q ∈ refs, q ≠ -1) (_hp : p ≠ -1)
    (hrun : vizSim cap refs = some (st, recs))
    (habs : p ∉ st.frames) (hfull : (-1 : Int) ∉ st.frames) :
    ∃ victim rest idx st2 r,
      st.queue = victim :: rest ∧
      st.frames[idx]? = some victim ∧
      vizSim cap (refs ++ [p]) = some (st2, recs ++ [r]) ∧
      st2.frames = st.frames.set idx p ∧
      st2.queue = rest ++ [p] ∧
      victim ∉ st2.frames ∧
      r = ⟨p, true, VizNote.replacePage victim (idx + 1), st2.frames⟩ := by
  obtain ⟨fr, qu, fl⟩ := st
  obtain ⟨stm, recsM, stv, recsV, hms, hvs, hinv, -, -, -, -, -, -, -, -⟩ :=
    runFacts cap hcap refs hval
  rw [hrun] at hvs
  have hpair := Option.some.inj hvs
  have hst : stv = ⟨fr, qu, fl⟩ := (congrArg Prod.fst hpair).symm
  have hrecs : recsV = recs := (congrArg Prod.snd hpair).symm
  subst hst hrecs
  obtain ⟨A, B, hpre, hfr, hBne, hlen, hcp, hq, hA, hdisj, hnd, hfc⟩ := hinv
  dsimp only at hfr hq habs hfull ⊢
  subst hfr
  obtain ⟨b, B', rfl⟩ : ∃ b B', B = b :: B' := by
    cases B with
    | nil => exact absurd rfl hBne
    | cons x xs => exact ⟨x, xs, rfl⟩
  have hndid : (A ++ b :: B').Nodup := by
    rw [filter_no_marker hfull] at hnd
    exact hnd
  have hbnotrest : b ∉ A ++ B' := by
    have h2 := List.nodup_middle.mp hndid
    rw [List.nodup_cons] at h2
    exact h2.1
  have hbA : b ∉ A := fun h => hbnotrest (List.mem_append.mpr (Or.inl h))
  have hbB' : b ∉ B' := fun h => hbnotrest (List.mem_append.mpr (Or.inr h))
  have hnoBA : (-1 : Int) ∉ (b :: B') ++ A := by
    intro h
    rcases List.mem_append.mp h with h1 | h1
    · exact hfull (List.mem_append.mpr (Or.inr h1))
    · exact hfull (List.mem_append.mpr (Or.inl h1))
  have hq2 : qu = b :: (B' ++ A) := by
    rw [hq, filter_no_marker hnoBA]
    simp
  subst hq2
  have hviz := vizStep_full A b B' (B' ++ A) fl p habs hfull hbA
  refine ⟨b, B' ++ A, A.length, ⟨A ++ p :: B', (B' ++ A) ++ [p], fl + 1⟩,
    ⟨p, true, VizNote.replacePage b (A.length + 1), A ++ p :: B'⟩,
    rfl, getElem_opt_append_cons A b B', ?_, ?_, rfl, ?_, rfl⟩
  · rw [vizSim_snoc, hrun, Option.some_bind, hviz]
    rfl
  · rw [set_append_cons]
  · intro h
    rcases List.mem_append.mp h with h1 | h1
    · exact hbA h1
    · rcases List.mem_cons.mp h1 with h2 | h2
      · refine habs ?_
        rw [← h2]
        exact List.mem_append.mpr (Or.inr (List.mem_cons_self _ _))
      · exact hbB' h2

/-- C6 (witness): with one frame holding page 5, referencing page 6 evicts
the queue front 5 and installs 6 in its slot. -/
theorem C6_witness :
    (1 ≤ 1 ∧ (∀ q ∈ [(5 : Int)], q ≠ -1) ∧ (6 : Int) ≠ -1 ∧
      vizSim 1 [5] = some (⟨[5], [5], 1⟩, [⟨5, true, VizNote.addToFrame 1, [5]⟩]) ∧
      (6 : Int) ∉ [(5 : Int)] ∧ (-1 : Int) ∉ [(5 : Int)]) ∧
    (∃ victim rest idx st2 r,
      (⟨[5], [5], 1⟩ : VizState).queue = victim :: rest ∧
      (⟨[5], [5], 1⟩ : VizState).frames[idx]? = some victim ∧
      vizSim 1 ([5] ++ [6]) =
        some (st2, [⟨5, true, VizNote.addToFrame 1, [5]⟩] ++ [r]) ∧
      st2.frames = (⟨[5], [5], 1⟩ : VizState).frames.set idx 6 ∧
      st2.queue = rest ++ [6] ∧
      victim ∉ st2.frames ∧
      r = ⟨6, true, VizNote.replacePage victim (idx + 1), st2.frames⟩) :=
  ⟨⟨by decide, by decide, by decide, by decide, by decide, by decide⟩,
    C6_fifo_eviction 1 [5] 6 ⟨[5], [5], 1⟩ [⟨5, true, VizNote.addToFrame 1, [5]⟩]
      (by decide) (by decide) (by decide) (by decide) (by decide) (by decide)⟩

/-- C7 (counterexample): on the empty reference sequence the loop does
yield 0 faults and no steps, but the fault-rate computation divides by the
reference count with no emptiness guard, so the rate is an error
(ZeroDivisionError, modelled none), not 0. -/
theorem C7_counterexample :
    vizRunResult 1 [] = some (⟨[-1], [], 0⟩, [], none) ∧
    (none : Option ℚ) ≠ some 0 := by
  exact ⟨rfl, by simp⟩

/-- C7 (amended): for the empty reference sequence and any capacity ≥ 1
both simulation loops return 0 faults and an empty step sequence; the
fault-rate computation of lines 179 and 245 is undefined there rather
than 0. -/
theorem C7_empty_run (cap : Nat) (_hcap : 1 ≤ cap) :
    vizRunResult cap [] = some (vizInit cap, [], none) ∧
    mainSim (cap : Int) [] = some (mainInit (cap : Int), []) ∧
    faultRate 0 0 = none := by
  exact ⟨rfl, rfl, rfl⟩

/-- C7 (witness): the empty-run behaviour at capacity 2. -/
theorem C7_witness :
    1 ≤ 2 ∧
    (vizRunResult 2 [] = some (vizInit 2, [], none) ∧
      mainSim (2 : Int) [] = some (mainInit (2 : Int), []) ∧
      faultRate 0 0 = none) :=
  ⟨by decide, C7_empty_run 2 (by decide)⟩

/-- C8 (counterexample): with frame_capacity = 0 and an empty reference
sequence, main's loop completes and produces a run result, so an
invalid capacity does not always fail before doing any work. -/
theorem C8_counterexample :
    mainSim 0 [] = some (⟨[], 0, 0⟩, []) := by
  exact rfl

/-- C8 (amended): capacities below 1 are rejected by the input layer's
validation predicate (line 47), so the interactive program never invokes
the simulation with them; the simulation loop itself has no guard: invoked
directly it fails on the first fault with an index error (line 116,
modelled none), and completes vacuously on an empty sequence. -/
theorem C8_invalid_capacity (c p : Int) (ps : List Int) (h : c < 1) :
    validPageCount c = false ∧
    mainSim c (p :: ps) = none ∧
    mainSim c [] = some (mainInit c, []) := by
  have h0 : c.toNat = 0 := by omega
  have harr : mainInit c = ⟨[], 0, 0⟩ := by simp [mainInit, h0]
  refine ⟨?_, ?_, rfl⟩
  · simp [validPageCount]
    omega
  · have hstep : mainStep c ⟨[], 0, 0⟩ p = none := by
      by_cases hc : (0 : Int) = c
      · simp [mainStep, pySet, hc]
      · simp [mainStep, pySet, hc]
    show mainRun c (mainInit c) (p :: ps) = none
    rw [harr]
    simp [mainRun, hstep]

/-- C8 (witness): capacity 0 with reference 7. -/
theorem C8_witness :
    (0 : Int) < 1 ∧
    (validPageCount 0 = false ∧
      mainSim 0 [7] = none ∧
      mainSim 0 [] = some (mainInit 0, [])) :=
  ⟨by decide, C8_invalid_capacity 0 7 [] (by decide)⟩

/-- C9: for every reference sequence of valid page ids and capacity ≥ 1
the circular-pointer implementation of main and the queue-based
implementation of visualize_fifo_example classify exactly the same
references as faults and report the same total fault count. -/
theorem C9_implementations_agree (cap : Nat) (refs : List Int)
    (hcap : 1 ≤ cap) (hval : ∀ p ∈ refs, p ≠ -1) :
    ∃ stm recsM stv recsV,
      mainSim (cap : Int) refs = some (stm, recsM) ∧
      vizSim cap refs = some (stv, recsV) ∧
      recsM.map (·.faultFlag) =
        recsV.map (fun r => if r.fault then 1 else 0) ∧
      stm.numberPageFault = stv.faults := by
  obtain ⟨stm, recsM, stv, recsV, hms, hvs, hinv, hpages, hflags, hfcount,
    hsuffix, hmem, hdist, hub, hfirst⟩ := runFacts cap hcap refs hval
  obtain ⟨A, B, -, -, -, -, -, -, -, -, -, hfc⟩ := hinv
  exact ⟨stm, recsM, stv, recsV, hms, hvs, hflags, hfc.symm⟩

/-- C9 (witness): agreement of the two implementations on the worked
example at frames = 3. -/
theorem C9_witness :
    (1 ≤ 3 ∧ (∀ p ∈ exampleRefs, p ≠ -1)) ∧
    (∃ stm recsM stv recsV,
      mainSim 3 exampleRefs = some (stm, recsM) ∧
      vizSim 3 exampleRefs = some (stv, recsV) ∧
      recsM.map (·.faultFlag) =
        recsV.map (fun r => if r.fault then 1 else 0) ∧
      stm.numberPageFault = stv.faults) :=
  ⟨⟨by decide, by decide⟩,
    C9_implementations_agree 3 exampleRefs (by decide) (by decide)⟩

/-- C10: in main's loop, for page_count ≥ 1 the pointer invariant
0 ≤ current_page < page_count holds at the top of every iteration, so the
branch testing current_page == page_count (which would print the
memory-full note) is never executed and every fault carries the
empty-frame-available note. -/
theorem C10_pointer_invariant (pc : Int) (refs : List Int) (k : Nat)
    (hpc : 1 ≤ pc) :
    ∃ st recs, mainSim pc (refs.take k) = some (st, recs) ∧
      0 ≤ st.currentPage ∧ st.currentPage < pc ∧
      (∀ r ∈ recs, ∀ f, r.note ≠ MainNote.memoryFullReplace f) ∧
      (∀ r ∈ recs, r.faultFlag = 1 →
        ∃ f, r.note = MainNote.emptyFrameAvailable f) := by
  obtain ⟨st2, recs, hrun, g1, g2, g3, g4⟩ :=
    mainRun_inv pc hpc (refs.take k) (mainInit pc)
      (by simp [mainInit]) (by simp [mainInit]) (by simp [mainInit]; omega)
  refine ⟨st2, recs, hrun, g2, g3, ?_, ?_⟩
  · intro r hr f
    rcases g4 r hr with ⟨h5, h6⟩ | ⟨f2, h5, h6⟩ <;> simp [h5]
  · intro r hr hflag
    rcases g4 r hr with ⟨h5, h6⟩ | ⟨f2, h5, h6⟩
    · omega
    · exact ⟨f2, h5⟩

/-- C10 (witness): the pointer invariant on the full worked example for
main at page_count = 3 (note -1-valued references are not excluded). -/
theorem C10_witness :
    (1 : Int) ≤ 3 ∧
    (∃ st recs, mainSim 3 (exampleRefs.take 12) = some (st, recs) ∧
      0 ≤ st.currentPage ∧ st.currentPage < 3 ∧
      (∀ r ∈ recs, ∀ f, r.note ≠ MainNote.memoryFullReplace f) ∧
      (∀ r ∈ recs, r.faultFlag = 1 →
        ∃ f, r.note = MainNote.emptyFrameAvailable f)) :=
  ⟨by decide, C10_pointer_invariant 3 exampleRefs 12 (by decide)⟩

end FIFO
